import Mathlib

/-!
Verification development for the AI Learning Hub application (`app.py`).

The application orchestrates calls to a generative-AI backend:
a rate limiter (`rate_limit_check`), a model resolver
(`get_working_model`), response cleaning/parsing of fenced JSON
(`generate_course` / `generate_quiz` / `get_recommendations`), and an
in-memory per-user progress store (`initialize_user_data`, quiz
submission in `quiz_page`).

Text is modelled as `List Char`; wall-clock time and scores as `ℚ`
(Python floats at the granularity used by the code); fallible code
returns `Option`.  All definitions are executable.
-/

/-- Whitespace test matching Python `str.strip`'s default character class
(space, tab, newline, carriage return, vertical tab, form feed). -/
def isWsChar (c : Char) : Bool :=
  c = ' ' || c = '\t' || c = '\n' || c = '\r' || c = '\x0b' || c = '\x0c'

/-- Remove leading whitespace (left half of Python `str.strip`). -/
def trimLeft (l : List Char) : List Char := l.dropWhile isWsChar

/-- Remove trailing whitespace (right half of Python `str.strip`). -/
def trimRight (l : List Char) : List Char := (l.reverse.dropWhile isWsChar).reverse

/-- Python `str.strip()` on a list of characters. -/
def pyStrip (l : List Char) : List Char := trimRight (trimLeft l)

/-- Decimal digits of a natural number, most significant first;
`fuel` bounds the recursion depth (any `fuel > log10 n` is exact). -/
def natCharsAux : ℕ → ℕ → List Char
  | 0, _ => []
  | fuel + 1, n =>
      if n < 10 then [Nat.digitChar n]
      else natCharsAux fuel (n / 10) ++ [Nat.digitChar (n % 10)]

/-- Decimal digits of a natural number, most significant first. -/
def natChars (n : ℕ) : List Char := natCharsAux (n + 1) n

/-- Decimal rendering of an integer. -/
def intChars (n : ℤ) : List Char :=
  if n < 0 then '-' :: natChars n.natAbs else natChars n.toNat

/-- JSON values as exchanged with the backend.  Numbers are modelled as
integers (the course/quiz/recommendation payloads the application
exchanges are strings, arrays and objects; no fractional numbers are
required by any schema in `app.py`). -/
inductive Json where
  | null : Json
  | bool (b : Bool) : Json
  | num (n : ℤ) : Json
  | str (s : List Char) : Json
  | arr (items : List Json) : Json
  | obj (members : List (List Char × Json)) : Json

/-- JSON string escaping for the characters the serializer may need to
protect (quote, backslash, and common control characters). -/
def escapeChar (c : Char) : List Char :=
  if c = '"' then ['\\', '"']
  else if c = '\\' then ['\\', '\\']
  else if c = '\n' then ['\\', 'n']
  else if c = '\t' then ['\\', 't']
  else if c = '\r' then ['\\', 'r']
  else [c]

/-- Escape every character of a JSON string body. -/
def escapeStr (s : List Char) : List Char := (s.map escapeChar).flatten

/-- A JSON string literal: quoted, escaped body. -/
def quoteStr (s : List Char) : List Char := '"' :: (escapeStr s ++ ['"'])

/-- The rendering of the JSON `null` literal. -/
def nullChars : List Char := ['n', 'u', 'l', 'l']

/-- The rendering of the JSON boolean literals. -/
def boolChars (b : Bool) : List Char :=
  if b then ['t', 'r', 'u', 'e'] else ['f', 'a', 'l', 's', 'e']

mutual

/-- Standard JSON serialization (the role `json.dumps` plays on the
spec side of the round-trip property): objects in `{...}`, arrays in
`[...]`, with `", "` and `": "` separators. -/
def Json.serialize : Json → List Char
  | .null => nullChars
  | .bool b => boolChars b
  | .num n => intChars n
  | .str s => quoteStr s
  | .arr items => '[' :: (Json.serializeItems items ++ [']'])
  | .obj members => '{' :: (Json.serializeMembers members ++ ['}'])

/-- Serialize array elements, separated by `", "`. -/
def Json.serializeItems : List Json → List Char
  | [] => []
  | [x] => Json.serialize x
  | x :: y :: rest => Json.serialize x ++ ',' :: ' ' :: Json.serializeItems (y :: rest)

/-- Serialize object members, separated by `", "`, keys quoted. -/
def Json.serializeMembers : List (List Char × Json) → List Char
  | [] => []
  | [(k, v)] => quoteStr k ++ ':' :: ' ' :: Json.serialize v
  | (k, v) :: m :: rest =>
      quoteStr k ++ ':' :: ' ' :: Json.serialize v ++ ',' :: ' ' :: Json.serializeMembers (m :: rest)

end

/-- The seven characters of an opening fence with language tag,
compared by `text.startswith` at app.py:239. -/
def jsonFenceChars : List Char := ['`', '`', '`', 'j', 's', 'o', 'n']

/-- A bare triple-backtick fence, checked at app.py:241 and app.py:243. -/
def fenceChars : List Char := ['`', '`', '`']

/-- Python `text[:-3]`: drop the last three characters. -/
def dropRight3 (l : List Char) : List Char := (l.reverse.drop 3).reverse

/-- The response-cleaning sequence shared by `generate_course`
(app.py:238–245), `generate_quiz` (app.py:298–305) and
`get_recommendations` (app.py:335–342) is the composition
`pyStrip ∘ afterTrailingFence ∘ afterBareFence ∘ afterJsonFence ∘ pyStrip`
below.  app.py:239–240: drop a leading "```json" (7 chars) if
present. -/
def afterJsonFence (text : List Char) : List Char :=
  if jsonFenceChars.isPrefixOf text then text.drop 7 else text

/-- app.py:241–242: drop a leading bare fence if present. -/
def afterBareFence (text : List Char) : List Char :=
  if fenceChars.isPrefixOf text then text.drop 3 else text

/-- app.py:243–244: drop a trailing bare fence if present. -/
def afterTrailingFence (text : List Char) : List Char :=
  if fenceChars.isSuffixOf text then dropRight3 text else text

/-- The full cleaning sequence, ending in the `.strip()` inside the
`json.loads` call. -/
def cleanResponse (raw : List Char) : List Char :=
  pyStrip (afterTrailingFence (afterBareFence (afterJsonFence (pyStrip raw))))

/-- Wrap serialized JSON in a ```json fenced code block, the way the
round-trip property feeds text to the parser. -/
def fenceWrap (s : List Char) : List Char :=
  jsonFenceChars ++ '\n' :: (s ++ '\n' :: fenceChars)

/-- The parse boundary as a function of an arbitrary JSON decoder
(`json.loads` in the source): clean the raw text, then decode it. -/
def parseWith (decode : List Char → Option Json) (raw : List Char) : Option Json :=
  decode (cleanResponse raw)

/-- Replace-or-append assignment on a JSON object's member list,
matching Python `dict` assignment semantics (existing key keeps its
position, new key is appended). -/
def objSet (members : List (List Char × Json)) (key : List Char) (v : Json) :
    List (List Char × Json) :=
  match members with
  | [] => [(key, v)]
  | (k, w) :: rest =>
      if k = key then (k, v) :: rest else (k, w) :: objSet rest key v

/-- Whether a JSON value is an object holding the given top-level key. -/
def hasKey (j : Json) (key : List Char) : Bool :=
  match j with
  | .obj members => members.any (fun kv => kv.1 == key)
  | _ => false

/-- Skip leading whitespace while decoding. -/
def skipWs (l : List Char) : List Char := l.dropWhile isWsChar

/-- Decode a JSON string body after the opening quote; returns the
decoded content and the remaining input after the closing quote. -/
def decodeStringBody (fuel : ℕ) (l : List Char) : Option (List Char × List Char) :=
  match fuel, l with
  | 0, _ => none
  | _, [] => none
  | fuel + 1, c :: rest =>
      if c = '"' then some ([], rest)
      else if c = '\\' then
        match rest with
        | [] => none
        | e :: rest' =>
            let d := if e = 'n' then '\n' else if e = 't' then '\t'
                     else if e = 'r' then '\r' else e
            match decodeStringBody fuel rest' with
            | some (s, r) => some (d :: s, r)
            | none => none
      else
        match decodeStringBody fuel rest with
        | some (s, r) => some (c :: s, r)
        | none => none

/-- Decode a non-empty run of decimal digits into a natural number. -/
def decodeDigits (l : List Char) : Option (ℕ × List Char) :=
  let ds := l.takeWhile (fun c => c.isDigit)
  if ds.isEmpty then none
  else some (ds.foldl (fun acc c => acc * 10 + (c.toNat - 48)) 0, l.drop ds.length)

mutual

/-- Decode one JSON value from the input (integers, strings, booleans,
null, arrays, objects — the grammar fragment the application's
payloads use), returning the value and the remaining input. -/
def decodeValue : ℕ → List Char → Option (Json × List Char)
  | 0, _ => none
  | fuel + 1, l =>
      match skipWs l with
      | [] => none
      | c :: rest =>
          if c = 'n' then
            match rest with
            | 'u' :: 'l' :: 'l' :: r => some (Json.null, r)
            | _ => none
          else if c = 't' then
            match rest with
            | 'r' :: 'u' :: 'e' :: r => some (Json.bool true, r)
            | _ => none
          else if c = 'f' then
            match rest with
            | 'a' :: 'l' :: 's' :: 'e' :: r => some (Json.bool false, r)
            | _ => none
          else if c = '"' then
            match decodeStringBody (rest.length + 1) rest with
            | some (s, r) => some (Json.str s, r)
            | none => none
          else if c = '-' then
            match decodeDigits rest with
            | some (n, r) => some (Json.num (-(n : ℤ)), r)
            | none => none
          else if c.isDigit then
            match decodeDigits (c :: rest) with
            | some (n, r) => some (Json.num (n : ℤ), r)
            | none => none
          else if c = '[' then
            match skipWs rest with
            | ']' :: r => some (Json.arr [], r)
            | l' => match decodeItems fuel l' with
                    | some (items, r) => some (Json.arr items, r)
                    | none => none
          else if c = '{' then
            match skipWs rest with
            | '}' :: r => some (Json.obj [], r)
            | l' => match decodeMembers fuel l' with
                    | some (pairs, r) =>
                        some (Json.obj (pairs.foldl (fun acc kv => objSet acc kv.1 kv.2) []), r)
                    | none => none
          else none

/-- Decode the elements of a non-empty JSON array up to `]`. -/
def decodeItems : ℕ → List Char → Option (List Json × List Char)
  | 0, _ => none
  | fuel + 1, l =>
      match decodeValue fuel l with
      | none => none
      | some (v, r) =>
          match skipWs r with
          | ',' :: r' =>
              match decodeItems fuel r' with
              | some (items, r'') => some (v :: items, r'')
              | none => none
          | ']' :: r' => some ([v], r')
          | _ => none

/-- Decode the key/value pairs of a non-empty JSON object up to `}`,
in textual order; the caller folds them into an object with
Python-`dict` assignment semantics (later duplicate overwrites). -/
def decodeMembers : ℕ → List Char → Option (List (List Char × Json) × List Char)
  | 0, _ => none
  | fuel + 1, l =>
      match skipWs l with
      | '"' :: rest =>
          match decodeStringBody (rest.length + 1) rest with
          | none => none
          | some (k, r) =>
              match skipWs r with
              | ':' :: r' =>
                  match decodeValue fuel r' with
                  | none => none
                  | some (v, r'') =>
                      match skipWs r'' with
                      | ',' :: r3 =>
                          match decodeMembers fuel r3 with
                          | some (pairs, r4) => some ((k, v) :: pairs, r4)
                          | none => none
                      | '}' :: r3 => some ([(k, v)], r3)
                      | _ => none
              | _ => none
      | _ => none

end

/-- Python `json.loads` on the decoded grammar fragment: decode one value and
require only trailing whitespace after it. -/
def jsonDecode (l : List Char) : Option Json :=
  match decodeValue (2 * l.length + 4) l with
  | some (v, rest) => if (skipWs rest).isEmpty then some v else none
  | none => none

/-- Generation metadata stamped onto a parsed course
(app.py:246–248): `created_date`, `user_topic`, `level`. -/
def stampCourse (members : List (List Char × Json)) (topic level date : List Char) :
    List (List Char × Json) :=
  objSet (objSet (objSet members
    ('c' :: 'r' :: 'e' :: 'a' :: 't' :: 'e' :: 'd' :: '_' :: 'd' :: 'a' :: 't' :: ['e'])
    (Json.str date))
    ('u' :: 's' :: 'e' :: 'r' :: '_' :: 't' :: 'o' :: 'p' :: 'i' :: ['c'])
    (Json.str topic))
    ('l' :: 'e' :: 'v' :: 'e' :: ['l'])
    (Json.str level)

/-- The parse boundary of `generate_course` (app.py:236–252): clean the
raw response, decode it, stamp metadata onto the decoded object and
return it.  A decode failure raises `json.JSONDecodeError` and a
non-object decode raises `TypeError` on the metadata assignment; both
are caught by the surrounding `except`, which returns `None`. -/
def parseCourseText (topic level date : List Char) (raw : List Char) : Option Json :=
  match jsonDecode (cleanResponse raw) with
  | some (Json.obj members) => some (Json.obj (stampCourse members topic level date))
  | some _ => none
  | none => none

/-- The parse boundary of `generate_quiz` (app.py:296–308): clean the
raw response, decode it and return the decoded value unchanged — the
code performs no validation of the decoded value's shape or keys.
A decode failure is caught by the surrounding `except` (`None`). -/
def parseQuizText (raw : List Char) : Option Json :=
  jsonDecode (cleanResponse raw)

/-- The rate limiter's session state: `last_request_time` and
`request_count` (app.py:94–97).  A fresh session starts at `⟨0, 0⟩`. -/
structure RateState where
  last : ℚ
  count : ℕ
deriving DecidableEq, Repr

/-- Outcome of one `rate_limit_check()` call: whether the request was
allowed, the wait time shown to the user on denial (the code displays
`int(wait_time)` of this value), whether the window was reset, and
the state afterwards. -/
structure PermitResult where
  allowed : Bool
  waitShown : Option ℚ
  didReset : Bool
  state : RateState
deriving DecidableEq, Repr

/-- The function `rate_limit_check()` (app.py:172–189): reset the window when more
than 60 seconds have elapsed; with 10 or more requests recorded and a
positive remaining wait, deny and report the wait; otherwise record
the request and allow. -/
def rateLimitCheck (now : ℚ) (s : RateState) : PermitResult :=
  let didReset := now - s.last > 60
  let s := if didReset then RateState.mk now 0 else s
  if s.count ≥ 10 then
    let wait := 60 - (now - s.last)
    if wait > 0 then ⟨false, some wait, didReset, s⟩
    else ⟨true, none, didReset, ⟨s.last, s.count + 1⟩⟩
  else ⟨true, none, didReset, ⟨s.last, s.count + 1⟩⟩

/-- Run a sequence of permit checks at the given wall-clock times,
collecting each call's result. -/
def runPermits (ts : List ℚ) (s : RateState) : List PermitResult × RateState :=
  match ts with
  | [] => ([], s)
  | t :: rest =>
      (rateLimitCheck t s :: (runPermits rest (rateLimitCheck t s).state).1,
       (runPermits rest (rateLimitCheck t s).state).2)

/-- The states visited by a sequence of permit checks (state after each
call, in order). -/
def permitStates (ts : List ℚ) (s : RateState) : List RateState :=
  match ts with
  | [] => []
  | t :: rest =>
      (rateLimitCheck t s).state :: permitStates rest (rateLimitCheck t s).state

/-- Holds (as `true`) when no call of the sequence arrives exactly 60 seconds
after the current window start while the budget is already exhausted
(the boundary at which `rate_limit_check` neither resets nor denies). -/
def noBoundaryHit (ts : List ℚ) (s : RateState) : Bool :=
  match ts with
  | [] => true
  | t :: rest =>
      if t - s.last = 60 ∧ s.count ≥ 10 then false
      else noBoundaryHit rest (rateLimitCheck t s).state

/-- The fixed model preference list of `get_working_model`
(app.py:152–158). -/
def preferredModels : List String :=
  ["gemini-1.5-flash-8b", "gemini-1.5-flash", "gemini-2.0-flash-exp",
   "gemini-1.5-pro", "gemini-pro"]

/-- The selection policy of `get_working_model` (app.py:150–170) on an
already-listed catalog: an empty catalog yields no model; otherwise
the first preference present in the catalog, falling back to the
first catalog entry. -/
def resolveModel (catalog : List String) : Option String :=
  if catalog.isEmpty then none
  else
    match preferredModels.find? (fun p => decide (p ∈ catalog)) with
    | some p => some p
    | none => catalog.head?

/-- Observable calls an operation performs: the local permit check, the
backend model-listing call, and the backend content-generation call. -/
inductive CallEvent where
  | permitCheck (allowed : Bool) : CallEvent
  | listModels : CallEvent
  | generateContent : CallEvent
deriving DecidableEq, Repr

/-- Environment of one operation invocation: whether API configuration
succeeds, the wall clock, the rate-limiter state, the cached model
(`st.session_state.working_model`), the outcome of a backend model
listing (`none` = exception), and the outcome of a backend content
generation (`none` = exception). -/
structure Env where
  cfgOk : Bool
  now : ℚ
  rate : RateState
  cachedModel : Option String
  listedModels : Option (List String)
  backendText : Option (List Char)

/-- The function `get_working_model()` (app.py:142–170): return the cached model
without contacting the backend; otherwise list models (a backend
call), resolve by preference, and fail when listing fails or the
catalog is empty. -/
def getWorkingModel (cached : Option String) (listed : Option (List String)) :
    Option String × List CallEvent :=
  match cached with
  | some m => (some m, [])
  | none =>
      match listed with
      | none => (none, [CallEvent.listModels])
      | some catalog => (resolveModel catalog, [CallEvent.listModels])

/-- The function `generate_course` (app.py:191–252): configuration check, permit
check, model resolution, backend generation, parse-and-stamp; every
failure returns `None`.  Returns the result, the calls performed and
the rate state afterwards. -/
def generateCourse (env : Env) (topic level date : List Char) :
    Option Json × List CallEvent × RateState :=
  if !env.cfgOk then (none, [], env.rate)
  else
    let r := rateLimitCheck env.now env.rate
    if !r.allowed then (none, [CallEvent.permitCheck r.allowed], r.state)
    else
      match getWorkingModel env.cachedModel env.listedModels with
      | (none, evs) => (none, CallEvent.permitCheck r.allowed :: evs, r.state)
      | (some _, evs) =>
          match env.backendText with
          | none =>
              (none, CallEvent.permitCheck r.allowed :: (evs ++ [CallEvent.generateContent]),
               r.state)
          | some raw =>
              (parseCourseText topic level date raw,
               CallEvent.permitCheck r.allowed :: (evs ++ [CallEvent.generateContent]),
               r.state)

/-- The function `generate_quiz` (app.py:254–308): same protocol as course
generation, with the decoded value returned unvalidated. -/
def generateQuiz (env : Env) : Option Json × List CallEvent × RateState :=
  if !env.cfgOk then (none, [], env.rate)
  else
    let r := rateLimitCheck env.now env.rate
    if !r.allowed then (none, [CallEvent.permitCheck r.allowed], r.state)
    else
      match getWorkingModel env.cachedModel env.listedModels with
      | (none, evs) => (none, CallEvent.permitCheck r.allowed :: evs, r.state)
      | (some _, evs) =>
          match env.backendText with
          | none =>
              (none, CallEvent.permitCheck r.allowed :: (evs ++ [CallEvent.generateContent]),
               r.state)
          | some raw =>
              (parseQuizText raw,
               CallEvent.permitCheck r.allowed :: (evs ++ [CallEvent.generateContent]),
               r.state)

/-- The 4-entry fallback returned when configuration fails or the user
has no history (app.py:311–312). -/
def fallbackFour : Json :=
  Json.arr [Json.str ('P' :: 'y' :: 't' :: 'h' :: 'o' :: 'n' :: ' ' :: 'P' :: 'r' :: 'o' :: 'g' :: 'r' :: 'a' :: 'm' :: 'm' :: 'i' :: 'n' :: ['g']),
            Json.str ('D' :: 'a' :: 't' :: 'a' :: ' ' :: 'S' :: 'c' :: 'i' :: 'e' :: 'n' :: 'c' :: 'e' :: ' ' :: 'B' :: 'a' :: 's' :: 'i' :: 'c' :: ['s']),
            Json.str ('W' :: 'e' :: 'b' :: ' ' :: 'D' :: 'e' :: 'v' :: 'e' :: 'l' :: 'o' :: 'p' :: 'm' :: 'e' :: 'n' :: ['t']),
            Json.str ('M' :: 'a' :: 'c' :: 'h' :: 'i' :: 'n' :: 'e' :: ' ' :: 'L' :: 'e' :: 'a' :: 'r' :: 'n' :: 'i' :: 'n' :: 'g' :: ' ' :: 'I' :: 'n' :: 't' :: 'r' :: 'o' :: 'd' :: 'u' :: 'c' :: 't' :: 'i' :: 'o' :: ['n'])]

/-- The 5-entry default returned when the resolver fails or any later
step fails (app.py:315–316 and app.py:343–344). -/
def fallbackFive : Json :=
  match fallbackFour with
  | Json.arr items =>
      Json.arr (items ++ [Json.str ('A' :: 'I' :: ' ' :: 'F' :: 'u' :: 'n' :: 'd' :: 'a' :: 'm' :: 'e' :: 'n' :: 't' :: 'a' :: 'l' :: ['s'])])
  | j => j

/-- The function `get_recommendations` (app.py:310–344): with failed configuration
or empty history return the 4-entry fallback immediately; otherwise
resolve a model, call the backend, decode — and on any failure return
the 5-entry default instead of an error.  No permit check is made. -/
def getRecommendations (env : Env) (history : List (List Char))
    (_prefs : List (List Char)) : Json × List CallEvent :=
  if !env.cfgOk || history.isEmpty then (fallbackFour, [])
  else
    match getWorkingModel env.cachedModel env.listedModels with
    | (none, evs) => (fallbackFive, evs)
    | (some _, evs) =>
        match env.backendText with
        | none => (fallbackFive, evs ++ [CallEvent.generateContent])
        | some raw =>
            match jsonDecode (cleanResponse raw) with
            | none => (fallbackFive, evs ++ [CallEvent.generateContent])
            | some v => (v, evs ++ [CallEvent.generateContent])

/-- One quiz attempt as appended to the user's history
(app.py:593–597): topic, score, timestamp. -/
structure QuizAttempt where
  topic : List Char
  score : ℚ
  date : List Char
deriving DecidableEq, Repr

/-- A user's progress record as created by `initialize_user_data`
(app.py:103–113). -/
structure UserData where
  courses : List Json
  quizHistory : List QuizAttempt
  learningPreferences : List (List Char)
  totalScore : ℚ
  coursesCompleted : ℕ
  quizzesTaken : ℕ
  learningStreak : ℕ

/-- The freshly initialised user record (app.py:105–113). -/
def initUserData : UserData :=
  { courses := [], quizHistory := [], learningPreferences := [],
    totalScore := 0, coursesCompleted := 0, quizzesTaken := 0, learningStreak := 0 }

/-- Recording one quiz attempt (app.py:590–597): increment
`quizzes_taken`, add the score to `total_score`, append the attempt
to `quiz_history`. -/
def recordQuizAttempt (u : UserData) (a : QuizAttempt) : UserData :=
  { u with quizzesTaken := u.quizzesTaken + 1,
           totalScore := u.totalScore + a.score,
           quizHistory := u.quizHistory ++ [a] }

/-- One generated quiz question (app.py:283–291): question text, four
letter-tagged options, the `correct` field, an explanation. -/
structure QuizQuestion where
  question : List Char
  options : List (List Char)
  correct : List Char
  explanation : List Char

/-- The answer key stored when an option is selected (app.py:576):
`answer[0]`, the first character of the selected option string, as a
one-character string. -/
def storedAnswerKey (option : List Char) : List Char := option.take 1

/-- The grading comparison (app.py:584):
`st.session_state.quiz_answers.get(idx) == q['correct']` — a missing
answer (`None`) never equals a string; a stored answer matches by
exact, case-sensitive string equality. -/
def answerMatches (stored : Option (List Char)) (correct : List Char) : Bool :=
  match stored with
  | none => false
  | some s => s == correct

/-- The number of correct answers (app.py:582–585). -/
def countCorrect (questions : List QuizQuestion) (answers : ℕ → Option (List Char)) : ℕ :=
  (questions.enum.countP fun p => answerMatches (answers p.1) p.2.correct)

/-- Quiz submission (app.py:581–597): compute
`score = correct / len(questions) * 100` and record one attempt under
the quiz topic with the current timestamp. -/
def submitQuiz (questions : List QuizQuestion) (answers : ℕ → Option (List Char))
    (u : UserData) (topic date : List Char) : UserData × ℚ :=
  let correct := countCorrect questions answers
  let score := (correct : ℚ) / (questions.length : ℚ) * 100
  (recordQuizAttempt u ⟨topic, score, date⟩, score)

/-- The score display `f"{score:.1f}"` (app.py:600) modelled as
rounding to one decimal place. -/
def displayRound1 (q : ℚ) : ℚ := (round (q * 10) : ℤ) / 10

lemma foldl_recordQuizAttempt (attempts : List QuizAttempt) (u : UserData) :
    (attempts.foldl recordQuizAttempt u).totalScore
        = u.totalScore + (attempts.map QuizAttempt.score).sum
  ∧ (attempts.foldl recordQuizAttempt u).quizzesTaken = u.quizzesTaken + attempts.length
  ∧ (attempts.foldl recordQuizAttempt u).quizHistory = u.quizHistory ++ attempts := by
  induction attempts generalizing u with
  | nil => simp
  | cons a rest ih =>
      obtain ⟨h1, h2, h3⟩ := ih (recordQuizAttempt u a)
      simp only [List.foldl_cons]
      refine ⟨?_, ?_, ?_⟩
      · rw [h1]
        simp only [recordQuizAttempt, List.map_cons, List.sum_cons]
        ring
      · rw [h2]
        simp only [recordQuizAttempt, List.length_cons]
        omega
      · rw [h3]
        simp [recordQuizAttempt]

/-- Claim C7: for every sequence of quiz-attempt recordings starting
from the freshly initialised user record, `total_score` is the sum of
the recorded scores, `quizzes_taken` is the number of recordings, and
`quiz_history` holds exactly those attempts in order. -/
theorem c7_progress_invariant (attempts : List QuizAttempt) :
    (attempts.foldl recordQuizAttempt initUserData).totalScore
        = (attempts.map QuizAttempt.score).sum
  ∧ (attempts.foldl recordQuizAttempt initUserData).quizzesTaken = attempts.length
  ∧ (attempts.foldl recordQuizAttempt initUserData).quizHistory = attempts := by
  have h := foldl_recordQuizAttempt attempts initUserData
  simpa [initUserData] using h

/-- Claim C10: an answer counts as correct on submission exactly when
the `correct` field is the one-character string holding the selected
option's first character — comparison is exact and case-sensitive,
with no trimming or normalization, so any case or spacing
disagreement makes the answer count as wrong. -/
theorem c10_answer_matching (opt correct : List Char) (h : opt ≠ []) :
    (answerMatches (some (storedAnswerKey opt)) correct = true
        ↔ ∃ c, opt.head? = some c ∧ correct = [c])
  ∧ (storedAnswerKey opt).length = 1 := by
  cases opt with
  | nil => exact absurd rfl h
  | cons a t =>
      refine ⟨?_, rfl⟩
      show (([a] : List Char) == correct) = true ↔ _
      simp only [beq_iff_eq, List.head?_cons, Option.some.injEq]
      constructor
      · intro he
        exact ⟨a, rfl, he.symm⟩
      · rintro ⟨c, rfl, rfl⟩
        rfl

/-- Witness for C10 at a concrete input: the selected option is tagged
with a lowercase letter while `correct` holds the uppercase letter, so
the equivalence shows the answer counts as wrong. -/
theorem c10_witness :
    (['a', ')', ' ', 'x'] : List Char) ≠ []
  ∧ (answerMatches (some (storedAnswerKey ['a', ')', ' ', 'x'])) ['A'] = true
        ↔ ∃ c, (['a', ')', ' ', 'x'] : List Char).head? = some c ∧ ['A'] = [c]) :=
  ⟨by decide, (c10_answer_matching ['a', ')', ' ', 'x'] ['A'] (by decide)).1⟩

lemma find?_first_mem (prefs catalog : List String) (i : ℕ) (hi : i < prefs.length)
    (hmem : prefs.get ⟨i, hi⟩ ∈ catalog)
    (hlt : ∀ j (hj : j < prefs.length), j < i → prefs.get ⟨j, hj⟩ ∉ catalog) :
    prefs.find? (fun p => decide (p ∈ catalog)) = some (prefs.get ⟨i, hi⟩) := by
  induction prefs generalizing i with
  | nil => exact absurd hi (by simp)
  | cons p rest ih =>
      cases i with
      | zero =>
          have hp : p ∈ catalog := by simpa using hmem
          rw [List.find?_cons_of_pos _ (by simpa using hp)]
          simp
      | succ i' =>
          have hp : p ∉ catalog := hlt 0 (by simp) (by omega)
          rw [List.find?_cons_of_neg _ (by simpa using hp)]
          have hi' : i' < rest.length := by simpa using hi
          have hmem' : rest.get ⟨i', hi'⟩ ∈ catalog := by simpa using hmem
          have hlt' : ∀ j (hj : j < rest.length), j < i' → rest.get ⟨j, hj⟩ ∉ catalog := by
            intro j hj hji
            have := hlt (j + 1) (by simpa using Nat.succ_lt_succ hj) (by omega)
            simpa using this
          simpa using ih i' hi' hmem' hlt'

/-- Claim C6: model resolution over a catalog — an empty catalog yields
no model (`NoModelAvailable`); otherwise the first entry of the fixed
preference list present in the catalog is chosen, irrespective of the
catalog's own order; with no preference present the first catalog
entry is chosen. -/
theorem c6_model_resolution (catalog : List String) :
    (catalog = [] → resolveModel catalog = none)
  ∧ (∀ i (hi : i < preferredModels.length),
        preferredModels.get ⟨i, hi⟩ ∈ catalog →
        (∀ j (hj : j < preferredModels.length), j < i → preferredModels.get ⟨j, hj⟩ ∉ catalog) →
        resolveModel catalog = some (preferredModels.get ⟨i, hi⟩))
  ∧ ((∀ p ∈ preferredModels, p ∉ catalog) → catalog ≠ [] → resolveModel catalog = catalog.head?) := by
  refine ⟨?_, ?_, ?_⟩
  · rintro rfl
    simp [resolveModel]
  · intro i hi hmem hlt
    have hne : catalog ≠ [] := by
      intro hnil
      rw [hnil] at hmem
      exact absurd hmem (List.not_mem_nil _)
    unfold resolveModel
    rw [if_neg (by simpa using hne), find?_first_mem preferredModels catalog i hi hmem hlt]
  · intro hnone hne
    unfold resolveModel
    rw [if_neg (by simpa using hne)]
    have hfind : preferredModels.find? (fun p => decide (p ∈ catalog)) = none := by
      rw [List.find?_eq_none]
      intro p hp
      simpa using hnone p hp
    rw [hfind]

/-- Witness for C6 at a concrete catalog: both `gemini-pro` and
`gemini-1.5-flash` are listed, with the lower-priority one first;
resolution still returns the higher-priority `gemini-1.5-flash`. -/
theorem c6_witness :
    resolveModel ["gemini-pro", "gemini-1.5-flash"] = some "gemini-1.5-flash" :=
  (c6_model_resolution ["gemini-pro", "gemini-1.5-flash"]).2.1
    1 (by decide) (by decide) (by decide)

lemma rateLimitCheck_reset (now : ℚ) (s : RateState) (h : now - s.last > 60) :
    rateLimitCheck now s = ⟨true, none, true, ⟨now, 1⟩⟩ := by
  simp [rateLimitCheck, h]

lemma rateLimitCheck_allow (now : ℚ) (s : RateState) (h : ¬(now - s.last > 60))
    (hc : s.count < 10) :
    rateLimitCheck now s = ⟨true, none, false, ⟨s.last, s.count + 1⟩⟩ := by
  simp [rateLimitCheck, h, Nat.not_le.mpr hc]

lemma rateLimitCheck_deny (now : ℚ) (s : RateState) (h : ¬(now - s.last > 60))
    (hc : s.count ≥ 10) (hw : 60 - (now - s.last) > 0) :
    rateLimitCheck now s = ⟨false, some (60 - (now - s.last)), false, s⟩ := by
  simp [rateLimitCheck, h, hc, hw]

lemma rateLimitCheck_boundary (now : ℚ) (s : RateState) (h : ¬(now - s.last > 60))
    (hc : s.count ≥ 10) (hw : ¬(60 - (now - s.last) > 0)) :
    rateLimitCheck now s = ⟨true, none, false, ⟨s.last, s.count + 1⟩⟩ := by
  simp [rateLimitCheck, h, hc, hw]

lemma runPermits_window (ts : List ℚ) (t0 : ℚ) (c : ℕ)
    (hts : ∀ t ∈ ts, t0 ≤ t ∧ t ≤ t0 + 60) (hc : c + ts.length ≤ 10) :
    (∀ r ∈ (runPermits ts ⟨t0, c⟩).1, r.allowed = true)
  ∧ (runPermits ts ⟨t0, c⟩).2 = ⟨t0, c + ts.length⟩ := by
  induction ts generalizing c with
  | nil => simp [runPermits]
  | cons t rest ih =>
      obtain ⟨h1, h2⟩ := hts t (List.mem_cons_self t rest)
      have hcc : c < 10 := by
        simp only [List.length_cons] at hc
        omega
      have hstep : rateLimitCheck t ⟨t0, c⟩ = ⟨true, none, false, ⟨t0, c + 1⟩⟩ :=
        rateLimitCheck_allow t ⟨t0, c⟩ (by simp only; linarith) hcc
      obtain ⟨ha, hs⟩ := ih (c + 1)
        (fun u hu => hts u (List.mem_cons_of_mem _ hu))
        (by simp only [List.length_cons] at hc; omega)
      constructor
      · intro r hr
        simp only [runPermits, hstep, List.mem_cons] at hr
        rcases hr with rfl | hr
        · rfl
        · exact ha r hr
      · simp only [runPermits, hstep, hs, List.length_cons]
        congr 1
        omega

/-- Claim C2: starting from a fresh window at `t0`, ten permit calls
inside the window all succeed; an eleventh call strictly inside the
window is denied, reporting the remaining wait `60 − elapsed`; and
after more than 60 seconds have elapsed since the window start, a
permit following the denial succeeds with the counter reset to 1. -/
theorem c2_rate_limiter (t0 : ℚ) (ts : List ℚ) (t11 t12 : ℚ)
    (hlen : ts.length = 10)
    (hts : ∀ t ∈ ts, t0 ≤ t ∧ t ≤ t0 + 60)
    (_h11a : t0 ≤ t11) (h11b : t11 < t0 + 60)
    (h12 : t0 + 60 < t12) :
    (∀ r ∈ (runPermits ts ⟨t0, 0⟩).1, r.allowed = true)
  ∧ (rateLimitCheck t11 (runPermits ts ⟨t0, 0⟩).2).allowed = false
  ∧ (rateLimitCheck t11 (runPermits ts ⟨t0, 0⟩).2).waitShown = some (60 - (t11 - t0))
  ∧ (rateLimitCheck t12 (rateLimitCheck t11 (runPermits ts ⟨t0, 0⟩).2).state).allowed = true
  ∧ (rateLimitCheck t12 (rateLimitCheck t11 (runPermits ts ⟨t0, 0⟩).2).state).state
        = ⟨t12, 1⟩ := by
  obtain ⟨hall, hfin⟩ := runPermits_window ts t0 0 hts (by omega)
  rw [hlen] at hfin
  have hdeny : rateLimitCheck t11 (⟨t0, 0 + 10⟩ : RateState)
      = ⟨false, some (60 - (t11 - t0)), false, ⟨t0, 0 + 10⟩⟩ :=
    rateLimitCheck_deny t11 ⟨t0, 0 + 10⟩ (by simp only; linarith) (by simp)
      (by simp only; linarith)
  have hreset : rateLimitCheck t12 (⟨t0, 0 + 10⟩ : RateState) = ⟨true, none, true, ⟨t12, 1⟩⟩ :=
    rateLimitCheck_reset t12 ⟨t0, 0 + 10⟩ (by simp only; linarith)
  refine ⟨hall, ?_, ?_, ?_, ?_⟩ <;> rw [hfin, hdeny] <;> simp [hreset]

/-- Witness for C2 at concrete times: fresh window at 0, ten calls at
time 0, an eleventh at 30 denied with 30 seconds of wait shown, and a
call at 61 allowed again with the counter back at 1. -/
theorem c2_witness :
    (rateLimitCheck 30 (runPermits [0, 0, 0, 0, 0, 0, 0, 0, 0, 0] ⟨0, 0⟩).2).allowed = false
  ∧ (rateLimitCheck 30 (runPermits [0, 0, 0, 0, 0, 0, 0, 0, 0, 0] ⟨0, 0⟩).2).waitShown
        = some (60 - (30 - 0))
  ∧ (rateLimitCheck 61 (rateLimitCheck 30
        (runPermits [0, 0, 0, 0, 0, 0, 0, 0, 0, 0] ⟨0, 0⟩).2).state).allowed = true
  ∧ (rateLimitCheck 61 (rateLimitCheck 30
        (runPermits [0, 0, 0, 0, 0, 0, 0, 0, 0, 0] ⟨0, 0⟩).2).state).state = ⟨61, 1⟩ :=
  (c2_rate_limiter 0 [0, 0, 0, 0, 0, 0, 0, 0, 0, 0] 30 61 (by decide) (by norm_num)
    (by norm_num) (by norm_num) (by norm_num)).2

lemma rateLimitCheck_count_le (now : ℚ) (s : RateState) (hs : s.count ≤ 10)
    (hb : ¬(now - s.last = 60 ∧ s.count ≥ 10)) :
    (rateLimitCheck now s).state.count ≤ 10 := by
  by_cases hr : now - s.last > 60
  · rw [rateLimitCheck_reset now s hr]
    simp
  · by_cases hc : s.count ≥ 10
    · by_cases hw : 60 - (now - s.last) > 0
      · rw [rateLimitCheck_deny now s hr hc hw]
        exact hs
      · exact absurd ⟨by linarith, hc⟩ hb
    · rw [rateLimitCheck_allow now s hr (by omega)]
      simp only
      omega

/-- Claim C3 (amended): along any sequence of permit calls in which no
call arrives exactly 60 seconds after the current window start while
the budget is already exhausted, the recorded request count stays at
or below the quota of 10 after every call; and the limiter resets —
taking `windowStart := now` and counting the permitted request as 1 —
exactly when `now − windowStart > 60`.  (At the excluded boundary the
code neither resets nor denies, so the count may exceed 10 there.) -/
theorem c3_rate_window_amended (ts : List ℚ) (s0 : RateState) (t : ℚ) (s : RateState)
    (hs : s0.count ≤ 10) (hb : noBoundaryHit ts s0 = true) :
    (∀ s' ∈ permitStates ts s0, s'.count ≤ 10)
  ∧ ((rateLimitCheck t s).didReset = true ↔ t - s.last > 60)
  ∧ ((rateLimitCheck t s).didReset = true →
        (rateLimitCheck t s).state.last = t ∧ (rateLimitCheck t s).state.count = 1) := by
  refine ⟨?_, ?_, ?_⟩
  · induction ts generalizing s0 with
    | nil => simp [permitStates]
    | cons u rest ih =>
        rw [noBoundaryHit] at hb
        by_cases hcond : u - s0.last = 60 ∧ s0.count ≥ 10
        · rw [if_pos hcond] at hb
          exact absurd hb (by simp)
        · rw [if_neg hcond] at hb
          intro s' hs'
          simp only [permitStates, List.mem_cons] at hs'
          rcases hs' with rfl | hs'
          · exact rateLimitCheck_count_le u s0 hs hcond
          · exact ih (rateLimitCheck u s0).state
              (rateLimitCheck_count_le u s0 hs hcond) hb s' hs'
  · by_cases hr : t - s.last > 60
    · rw [rateLimitCheck_reset t s hr]
      simpa using hr
    · constructor
      · intro hfalse
        by_cases hc : s.count ≥ 10
        · by_cases hw : 60 - (t - s.last) > 0
          · rw [rateLimitCheck_deny t s hr hc hw] at hfalse
            exact absurd hfalse (by simp)
          · rw [rateLimitCheck_boundary t s hr hc hw] at hfalse
            exact absurd hfalse (by simp)
        · rw [rateLimitCheck_allow t s hr (by omega)] at hfalse
          exact absurd hfalse (by simp)
      · intro h60
        exact absurd h60 hr
  · intro hreset
    by_cases hr : t - s.last > 60
    · rw [rateLimitCheck_reset t s hr]
      exact ⟨rfl, rfl⟩
    · exfalso
      by_cases hc : s.count ≥ 10
      · by_cases hw : 60 - (t - s.last) > 0
        · rw [rateLimitCheck_deny t s hr hc hw] at hreset
          exact absurd hreset (by simp)
        · rw [rateLimitCheck_boundary t s hr hc hw] at hreset
          exact absurd hreset (by simp)
      · rw [rateLimitCheck_allow t s hr (by omega)] at hreset
        exact absurd hreset (by simp)

/-- Witness for the amended C3: a boundary-free call sequence from a
fresh state satisfies the hypotheses, and the reset equivalence holds
at a concrete post-denial state. -/
theorem c3_amended_witness :
    ((⟨0, 0⟩ : RateState).count ≤ 10)
  ∧ noBoundaryHit [0, 10, 70] ⟨0, 0⟩ = true
  ∧ ((rateLimitCheck 161 ⟨100, 10⟩).didReset = true ↔ (161 : ℚ) - 100 > 60) :=
  ⟨by decide, by norm_num [noBoundaryHit, rateLimitCheck],
   (c3_rate_window_amended [0, 10, 70] ⟨0, 0⟩ 161 ⟨100, 10⟩ (by decide)
     (by norm_num [noBoundaryHit, rateLimitCheck])).2.1⟩

/-- Counterexample to C3 as stated: from a fresh session, ten permits
at time 100 fill the window anchored at 100; an eleventh call at time
160 — exactly 60 seconds after `windowStart`, where the code neither
resets (reset needs strictly more than 60) nor denies (the computed
wait is not positive) — is granted, leaving `count = 11 > 10` inside
the still-current window. -/
theorem c3_counterexample :
    (runPermits [100, 100, 100, 100, 100, 100, 100, 100, 100, 100, 160] ⟨0, 0⟩).2
        = ⟨100, 11⟩
  ∧ ((160 : ℚ) - 100 ≤ 60)
  ∧ (rateLimitCheck 160 ⟨100, 10⟩).didReset = false
  ∧ (rateLimitCheck 160 ⟨100, 10⟩).allowed = true
  ∧ 10 < (11 : ℕ) := by
  refine ⟨?_, by norm_num, ?_, ?_, by norm_num⟩
  · norm_num [runPermits, rateLimitCheck]
  · norm_num [rateLimitCheck]
  · norm_num [rateLimitCheck]

/-- Claim C1 (amended): `generate_course` and `generate_quiz` run the
permit check first — whenever any backend call (model listing or
content generation) appears in their call trace, the trace starts
with a successful permit check, and a denied permit makes them return
`None` with the permit check as the only call performed.
`get_recommendations`, by contrast, performs no permit check at all
(see the counterexample). -/
theorem c1_permit_gating_amended (env : Env) (topic level date : List Char) :
    ((CallEvent.listModels ∈ (generateCourse env topic level date).2.1
        ∨ CallEvent.generateContent ∈ (generateCourse env topic level date).2.1) →
      ((generateCourse env topic level date).2.1).head?
          = some (CallEvent.permitCheck true))
  ∧ ((rateLimitCheck env.now env.rate).allowed = false → env.cfgOk = true →
      (generateCourse env topic level date).1 = none
      ∧ (generateCourse env topic level date).2.1 = [CallEvent.permitCheck false])
  ∧ ((CallEvent.listModels ∈ (generateQuiz env).2.1
        ∨ CallEvent.generateContent ∈ (generateQuiz env).2.1) →
      ((generateQuiz env).2.1).head? = some (CallEvent.permitCheck true))
  ∧ ((rateLimitCheck env.now env.rate).allowed = false → env.cfgOk = true →
      (generateQuiz env).1 = none
      ∧ (generateQuiz env).2.1 = [CallEvent.permitCheck false]) := by
  rcases hgw : getWorkingModel env.cachedModel env.listedModels with ⟨om, evs⟩
  by_cases hcfg : env.cfgOk = true
  · cases hr : (rateLimitCheck env.now env.rate).allowed
    · refine ⟨?_, ?_, ?_, ?_⟩ <;> simp [generateCourse, generateQuiz, hcfg, hr]
    · cases om with
      | none =>
          refine ⟨?_, ?_, ?_, ?_⟩ <;>
            simp [generateCourse, generateQuiz, hcfg, hr, hgw]
      | some m =>
          cases hbt : env.backendText with
          | none =>
              refine ⟨?_, ?_, ?_, ?_⟩ <;>
                simp [generateCourse, generateQuiz, hcfg, hr, hgw, hbt]
          | some raw =>
              refine ⟨?_, ?_, ?_, ?_⟩ <;>
                simp [generateCourse, generateQuiz, hcfg, hr, hgw, hbt]
  · have hcfg' : env.cfgOk = false := by simpa using hcfg
    refine ⟨?_, ?_, ?_, ?_⟩ <;> simp [generateCourse, generateQuiz, hcfg']

/-- Witness for the amended C1 at a concrete denied-permit
environment: the course operation returns `None` after only the
(failed) permit check. -/
theorem c1_amended_witness :
    (rateLimitCheck (30 : ℚ) ⟨0, 10⟩).allowed = false
  ∧ (generateCourse ⟨true, 30, ⟨0, 10⟩, some "gemini-pro", none, none⟩ [] [] []).1 = none
  ∧ (generateCourse ⟨true, 30, ⟨0, 10⟩, some "gemini-pro", none, none⟩ [] [] []).2.1
        = [CallEvent.permitCheck false] :=
  ⟨by norm_num [rateLimitCheck],
   (c1_permit_gating_amended ⟨true, 30, ⟨0, 10⟩, some "gemini-pro", none, none⟩ [] [] []).2.1
     (by norm_num [rateLimitCheck]) rfl⟩

/-- Counterexample to C1 as stated: with a configured key, a cached
model, a non-empty history and an exhausted rate budget (10 requests
recorded 30 seconds into the window — the permit check would deny),
`get_recommendations` still performs a backend content-generation
call, and its call trace contains no permit check whatsoever. -/
theorem c1_counterexample :
    (getRecommendations ⟨true, 30, ⟨0, 10⟩, some "gemini-1.5-flash", none, none⟩
        [['P']] []).2 = [CallEvent.generateContent]
  ∧ CallEvent.permitCheck true
        ∉ (getRecommendations ⟨true, 30, ⟨0, 10⟩, some "gemini-1.5-flash", none, none⟩
            [['P']] []).2
  ∧ CallEvent.permitCheck false
        ∉ (getRecommendations ⟨true, 30, ⟨0, 10⟩, some "gemini-1.5-flash", none, none⟩
            [['P']] []).2
  ∧ (rateLimitCheck (30 : ℚ) ⟨0, 10⟩).allowed = false :=
  ⟨rfl, by decide, by decide, by norm_num [rateLimitCheck]⟩

/-- Claim C8: `generate_recommendations` never propagates an error —
with empty history (or failed configuration) it returns the fixed
4-item fallback without any backend or resolver call; when the
resolver fails, the backend raises, or the response fails to decode,
it returns the fixed default list; and in every case the result is
one of the two fixed lists or the decoded backend response. -/
theorem c8_recommendations_never_error (env : Env) (history prefs : List (List Char)) :
    (history = [] → getRecommendations env history prefs = (fallbackFour, []))
  ∧ (env.cfgOk = false → getRecommendations env history prefs = (fallbackFour, []))
  ∧ ((getWorkingModel env.cachedModel env.listedModels).1 = none → env.cfgOk = true →
        history ≠ [] → (getRecommendations env history prefs).1 = fallbackFive)
  ∧ (∀ m, (getWorkingModel env.cachedModel env.listedModels).1 = some m →
        env.backendText = none → env.cfgOk = true → history ≠ [] →
        (getRecommendations env history prefs).1 = fallbackFive)
  ∧ (∀ m raw, (getWorkingModel env.cachedModel env.listedModels).1 = some m →
        env.backendText = some raw → jsonDecode (cleanResponse raw) = none →
        env.cfgOk = true → history ≠ [] →
        (getRecommendations env history prefs).1 = fallbackFive)
  ∧ ((getRecommendations env history prefs).1 = fallbackFour
      ∨ (getRecommendations env history prefs).1 = fallbackFive
      ∨ env.backendText.bind (fun raw => jsonDecode (cleanResponse raw))
          = some (getRecommendations env history prefs).1) := by
  rcases hgw : getWorkingModel env.cachedModel env.listedModels with ⟨om, evs⟩
  by_cases hcfg : env.cfgOk = true
  · by_cases hh : history = []
    · refine ⟨?_, ?_, ?_, ?_, ?_, ?_⟩ <;> simp [getRecommendations, hcfg, hh]
    · cases om with
      | none =>
          refine ⟨?_, ?_, ?_, ?_, ?_, ?_⟩ <;>
            simp [getRecommendations, hcfg, hh, hgw]
      | some m =>
          cases hbt : env.backendText with
          | none =>
              refine ⟨?_, ?_, ?_, ?_, ?_, ?_⟩ <;>
                simp [getRecommendations, hcfg, hh, hgw, hbt]
          | some raw =>
              cases hdec : jsonDecode (cleanResponse raw) with
              | none =>
                  refine ⟨?_, ?_, ?_, ?_, ?_, ?_⟩ <;>
                    simp [getRecommendations, hcfg, hh, hgw, hbt, hdec]
              | some v =>
                  refine ⟨?_, ?_, ?_, ?_, ?_, ?_⟩ <;>
                    simp [getRecommendations, hcfg, hh, hgw, hbt, hdec]
  · have hcfg' : env.cfgOk = false := by simpa using hcfg
    refine ⟨?_, ?_, ?_, ?_, ?_, ?_⟩ <;> simp [getRecommendations, hcfg']

/-- Witness for C8 at a concrete environment with empty history: the
4-item fallback is returned and no call of any kind is made. -/
theorem c8_witness :
    getRecommendations ⟨true, 0, ⟨0, 0⟩, none, none, none⟩ [] [] = (fallbackFour, []) :=
  (c8_recommendations_never_error ⟨true, 0, ⟨0, 0⟩, none, none, none⟩ [] []).1 rfl

lemma countCorrect_le_length (questions : List QuizQuestion)
    (answers : ℕ → Option (List Char)) :
    countCorrect questions answers ≤ questions.length := by
  have h := List.countP_le_length
    (p := fun p : ℕ × QuizQuestion => answerMatches (answers p.1) p.2.correct)
    (l := questions.enum)
  simpa [countCorrect] using h

/-- Claim C9: submitting a quiz with `n ≥ 1` questions of which `k`
answers match the `correct` field computes the score `(k / n) × 100`,
a rational in `[0, 100]`, appends exactly one attempt carrying that
score and the quiz topic to the user's history, increments the quiz
counter once, and displays the score rounded to one decimal place
(2 of 3 correct shows as 66.7). -/
theorem c9_quiz_submission (questions : List QuizQuestion)
    (answers : ℕ → Option (List Char)) (u : UserData) (topic date : List Char)
    (hn : 1 ≤ questions.length) :
    (submitQuiz questions answers u topic date).2
        = (countCorrect questions answers : ℚ) / (questions.length : ℚ) * 100
  ∧ 0 ≤ (submitQuiz questions answers u topic date).2
  ∧ (submitQuiz questions answers u topic date).2 ≤ 100
  ∧ (submitQuiz questions answers u topic date).1.quizHistory
        = u.quizHistory ++ [⟨topic, (submitQuiz questions answers u topic date).2, date⟩]
  ∧ (submitQuiz questions answers u topic date).1.quizzesTaken = u.quizzesTaken + 1
  ∧ (questions.length = 3 → countCorrect questions answers = 2 →
        displayRound1 (submitQuiz questions answers u topic date).2 = 667 / 10) := by
  have hk : countCorrect questions answers ≤ questions.length :=
    countCorrect_le_length questions answers
  have hnq : (0 : ℚ) < (questions.length : ℚ) := by
    exact_mod_cast Nat.lt_of_lt_of_le Nat.zero_lt_one hn
  refine ⟨rfl, ?_, ?_, ?_, ?_, ?_⟩
  · apply mul_nonneg
    · positivity
    · norm_num
  · show (countCorrect questions answers : ℚ) / (questions.length : ℚ) * 100 ≤ 100
    have hdiv : (countCorrect questions answers : ℚ) / (questions.length : ℚ) ≤ 1 := by
      rw [div_le_one hnq]
      exact_mod_cast hk
    calc (countCorrect questions answers : ℚ) / (questions.length : ℚ) * 100
        ≤ 1 * 100 := by
          apply mul_le_mul_of_nonneg_right hdiv
          norm_num
      _ = 100 := by norm_num
  · rfl
  · rfl
  · intro h3 h2
    show displayRound1 ((countCorrect questions answers : ℚ) / (questions.length : ℚ) * 100)
        = 667 / 10
    rw [h3, h2]
    norm_num [displayRound1, round_eq]

/-- The three questions of the C9 witness quiz, with correct letters
A, B and C. -/
def c9Questions : List QuizQuestion :=
  [⟨['q', '1'], [['A', ')'], ['B', ')'], ['C', ')'], ['D', ')']], ['A'], ['e', '1']⟩,
   ⟨['q', '2'], [['A', ')'], ['B', ')'], ['C', ')'], ['D', ')']], ['B'], ['e', '2']⟩,
   ⟨['q', '3'], [['A', ')'], ['B', ')'], ['C', ')'], ['D', ')']], ['C'], ['e', '3']⟩]

/-- The C9 witness answers: two of three match `correct`. -/
def c9Answers : ℕ → Option (List Char) :=
  fun i => if i = 0 then some ['A'] else if i = 1 then some ['B']
           else if i = 2 then some ['X'] else none

/-- Witness for C9 at a concrete quiz: three questions, two answered
correctly, displayed score 66.7. -/
theorem c9_witness :
    1 ≤ c9Questions.length
  ∧ countCorrect c9Questions c9Answers = 2
  ∧ displayRound1 (submitQuiz c9Questions c9Answers initUserData ['t'] ['d']).2
        = 667 / 10 :=
  ⟨by decide, by decide,
   (c9_quiz_submission c9Questions c9Answers initUserData ['t'] ['d']
      (by decide)).2.2.2.2.2 (by decide) (by decide)⟩

/-- A character that survives at the edge of a stripped text: neither
whitespace nor a backtick. -/
def solidChar (c : Char) : Prop := isWsChar c = false ∧ c ≠ '`'

lemma digitChar_isDigit : ∀ d : ℕ, d < 10 → (Nat.digitChar d).isDigit = true := by decide

lemma solidChar_of_isDigit (c : Char) (h : c.isDigit = true) : solidChar c := by
  constructor
  · cases hw : isWsChar c
    · rfl
    · exfalso
      simp only [isWsChar, Bool.or_eq_true, decide_eq_true_eq] at hw
      rcases hw with ((((rfl | rfl) | rfl) | rfl) | rfl) | rfl <;> exact absurd h (by decide)
  · rintro rfl
    exact absurd h (by decide)

lemma mem_natCharsAux_isDigit (fuel : ℕ) :
    ∀ n, ∀ c ∈ natCharsAux fuel n, c.isDigit = true := by
  induction fuel with
  | zero => intro n c hc; exact absurd hc (by simp [natCharsAux])
  | succ fuel ih =>
      intro n c hc
      rw [natCharsAux] at hc
      split at hc
      · next h =>
          simp only [List.mem_singleton] at hc
          subst hc
          exact digitChar_isDigit n h
      · next h =>
          rw [List.mem_append] at hc
          rcases hc with hc | hc
          · exact ih (n / 10) c hc
          · simp only [List.mem_singleton] at hc
            subst hc
            exact digitChar_isDigit _ (Nat.mod_lt _ (by omega))

lemma natChars_ne_nil (n : ℕ) : natChars n ≠ [] := by
  rw [natChars, natCharsAux]
  split <;> simp

lemma natChars_head_solid (n : ℕ) :
    ∃ a t, natChars n = a :: t ∧ solidChar a := by
  have hne := natChars_ne_nil n
  cases hc : natChars n with
  | nil => exact absurd hc hne
  | cons a t =>
      refine ⟨a, t, rfl, solidChar_of_isDigit a ?_⟩
      exact mem_natCharsAux_isDigit (n + 1) n a (by rw [← natChars, hc]; simp)

lemma natChars_last_solid (n : ℕ) :
    ∃ b, (natChars n).getLast? = some b ∧ solidChar b := by
  have hne := natChars_ne_nil n
  refine ⟨(natChars n).getLast hne, (List.getLast?_eq_getLast _ hne), ?_⟩
  exact solidChar_of_isDigit _
    (mem_natCharsAux_isDigit (n + 1) n _ (by rw [← natChars]; exact List.getLast_mem hne))

lemma intChars_head_solid (n : ℤ) :
    ∃ a t, intChars n = a :: t ∧ solidChar a := by
  unfold intChars
  split
  · obtain ⟨a, t, he, _⟩ := natChars_head_solid n.natAbs
    exact ⟨'-', natChars n.natAbs, rfl, by constructor <;> decide⟩
  · exact natChars_head_solid n.toNat

lemma intChars_last_solid (n : ℤ) :
    ∃ b, (intChars n).getLast? = some b ∧ solidChar b := by
  unfold intChars
  split
  · obtain ⟨b, hb, hs⟩ := natChars_last_solid n.natAbs
    refine ⟨b, ?_, hs⟩
    obtain ⟨a, t, he, _⟩ := natChars_head_solid n.natAbs
    rw [he, List.getLast?_cons_cons, ← he, hb]
  · exact natChars_last_solid n.toNat

lemma serialize_ends_solid (j : Json) :
    (∃ a t, Json.serialize j = a :: t ∧ solidChar a)
  ∧ (∃ b, (Json.serialize j).getLast? = some b ∧ solidChar b) := by
  cases j with
  | null => exact ⟨⟨'n', _, rfl, by constructor <;> decide⟩,
      ⟨'l', by constructor <;> first | rfl | (constructor <;> decide)⟩⟩
  | bool b =>
      cases b
      · exact ⟨⟨'f', _, rfl, by constructor <;> decide⟩,
          ⟨'e', by constructor <;> first | rfl | (constructor <;> decide)⟩⟩
      · exact ⟨⟨'t', _, rfl, by constructor <;> decide⟩,
          ⟨'e', by constructor <;> first | rfl | (constructor <;> decide)⟩⟩
  | num n => exact ⟨intChars_head_solid n, intChars_last_solid n⟩
  | str s =>
      refine ⟨⟨'"', _, rfl, by constructor <;> decide⟩, ⟨'"', ?_, by constructor <;> decide⟩⟩
      show (('"' :: escapeStr s) ++ ['"']).getLast? = some '"'
      exact List.getLast?_concat _
  | arr items =>
      refine ⟨⟨'[', _, rfl, by constructor <;> decide⟩, ⟨']', ?_, by constructor <;> decide⟩⟩
      show (('[' :: Json.serializeItems items) ++ [']']).getLast? = some ']'
      exact List.getLast?_concat _
  | obj members =>
      refine ⟨⟨'{', _, rfl, by constructor <;> decide⟩, ⟨'}', ?_, by constructor <;> decide⟩⟩
      show (('{' :: Json.serializeMembers members) ++ ['}']).getLast? = some '}'
      exact List.getLast?_concat _


lemma trimLeft_cons_nonWs (a : Char) (t : List Char) (ha : isWsChar a = false) :
    trimLeft (a :: t) = a :: t := by
  simp [trimLeft, List.dropWhile_cons, ha]

lemma trimRight_concat_nonWs (l : List Char) (b : Char) (hb : isWsChar b = false) :
    trimRight (l ++ [b]) = l ++ [b] := by
  simp [trimRight, List.reverse_append, List.dropWhile_cons, hb]

lemma getLast_of_getLast? (l : List Char) (b : Char) (hb : l.getLast? = some b)
    (hne : l ≠ []) : l.getLast hne = b := by
  have h := List.getLast?_eq_getLast l hne
  rw [h] at hb
  exact (Option.some.injEq _ _).mp hb

lemma pyStrip_eq_self (l : List Char)
    (h1 : ∃ a t, l = a :: t ∧ isWsChar a = false)
    (h2 : ∃ b, l.getLast? = some b ∧ isWsChar b = false) :
    pyStrip l = l := by
  obtain ⟨a, t, hl, ha⟩ := h1
  obtain ⟨b, hb, hsb⟩ := h2
  have hne : l ≠ [] := by rw [hl]; simp
  unfold pyStrip
  rw [hl, trimLeft_cons_nonWs a t ha, ← hl]
  have hg : l.getLast hne = b := getLast_of_getLast? l b hb hne
  calc trimRight l = trimRight (l.dropLast ++ [l.getLast hne]) := by
        rw [List.dropLast_append_getLast hne]
    _ = l.dropLast ++ [l.getLast hne] := by
        rw [hg]; exact trimRight_concat_nonWs _ b hsb
    _ = l := List.dropLast_append_getLast hne

lemma pyStrip_wrapped (l : List Char)
    (h1 : ∃ a t, l = a :: t ∧ isWsChar a = false)
    (h2 : ∃ b, l.getLast? = some b ∧ isWsChar b = false) :
    pyStrip ('\n' :: (l ++ ['\n'])) = l := by
  obtain ⟨a, t, hl, ha⟩ := h1
  obtain ⟨b, hb, hsb⟩ := h2
  have hne : l ≠ [] := by rw [hl]; simp
  have hg : l.getLast hne = b := getLast_of_getLast? l b hb hne
  have hnw : isWsChar '\n' = true := by decide
  unfold pyStrip
  have e1 : trimLeft ('\n' :: (l ++ ['\n'])) = l ++ ['\n'] := by
    rw [hl]
    simp [trimLeft, List.dropWhile_cons, ha, hnw]
  rw [e1]
  have e2 : trimRight (l ++ ['\n']) = l := by
    unfold trimRight
    rw [List.reverse_append]
    simp only [List.reverse_cons, List.reverse_nil, List.nil_append, List.singleton_append,
      List.dropWhile_cons, hnw, if_true]
    rw [← List.dropLast_append_getLast hne, hg, List.reverse_append]
    simp only [List.reverse_cons, List.reverse_nil, List.nil_append, List.singleton_append,
      List.dropWhile_cons, hsb, Bool.false_eq_true, if_false]
    simp
  rw [e2]

lemma jsonFence_not_prefixOf (a : Char) (t : List Char) (ha : a ≠ '`') :
    jsonFenceChars.isPrefixOf (a :: t) = false := by
  have hbeq : (('`' : Char) == a) = false := beq_eq_false_iff_ne.mpr (Ne.symm ha)
  simp [jsonFenceChars, List.isPrefixOf, hbeq]

lemma fence_not_prefixOf (a : Char) (t : List Char) (ha : a ≠ '`') :
    fenceChars.isPrefixOf (a :: t) = false := by
  have hbeq : (('`' : Char) == a) = false := beq_eq_false_iff_ne.mpr (Ne.symm ha)
  simp [fenceChars, List.isPrefixOf, hbeq]

lemma fence_not_suffixOf (l : List Char) (b : Char) (hb : l.getLast? = some b)
    (hne : b ≠ '`') : fenceChars.isSuffixOf l = false := by
  cases hsf : fenceChars.isSuffixOf l
  · rfl
  · exfalso
    rw [List.isSuffixOf_iff_suffix] at hsf
    obtain ⟨u, hu⟩ := hsf
    have hlast : l.getLast? = some '`' := by
      rw [← hu]
      have he : u ++ fenceChars = (u ++ ['`', '`']) ++ ['`'] := by simp [fenceChars]
      rw [he, List.getLast?_concat]
    rw [hlast] at hb
    exact hne ((Option.some.injEq _ _).mp hb).symm

lemma fence_isSuffixOf_append (u : List Char) :
    fenceChars.isSuffixOf (u ++ fenceChars) = true := by
  rw [List.isSuffixOf_iff_suffix]
  exact List.suffix_append u fenceChars

lemma dropRight3_concat_fence (u : List Char) : dropRight3 (u ++ fenceChars) = u := by
  simp [dropRight3, fenceChars, List.reverse_append]

lemma cleanResponse_fenceWrap (s : List Char)
    (h1 : ∃ a t, s = a :: t ∧ isWsChar a = false ∧ a ≠ '`')
    (h2 : ∃ b, s.getLast? = some b ∧ isWsChar b = false ∧ b ≠ '`') :
    cleanResponse (fenceWrap s) = s := by
  obtain ⟨a, t, hl, ha, _⟩ := h1
  obtain ⟨b, hb, hsb, _⟩ := h2
  unfold cleanResponse fenceWrap
  have e0 : pyStrip (jsonFenceChars ++ '\n' :: (s ++ '\n' :: fenceChars))
      = jsonFenceChars ++ '\n' :: (s ++ '\n' :: fenceChars) := by
    apply pyStrip_eq_self
    · exact ⟨'`', _, rfl, by decide⟩
    · refine ⟨'`', ?_, by decide⟩
      have he : jsonFenceChars ++ '\n' :: (s ++ '\n' :: fenceChars)
          = (jsonFenceChars ++ '\n' :: (s ++ ['\n', '`', '`'])) ++ ['`'] := by
        simp [fenceChars, jsonFenceChars]
      rw [he, List.getLast?_concat]
  rw [e0]
  have e1 : afterJsonFence (jsonFenceChars ++ '\n' :: (s ++ '\n' :: fenceChars))
      = '\n' :: (s ++ '\n' :: fenceChars) := by
    unfold afterJsonFence
    rw [if_pos ?hpos]
    case hpos =>
      rw [ List.isPrefixOf_iff_prefix]
      exact List.prefix_append _ _
    rw [show (7 : ℕ) = jsonFenceChars.length from rfl, List.drop_left]
  rw [e1]
  have e2 : afterBareFence ('\n' :: (s ++ '\n' :: fenceChars))
      = '\n' :: (s ++ '\n' :: fenceChars) := by
    unfold afterBareFence
    rw [if_neg (by simp [fence_not_prefixOf '\n' _ (by decide)])]
  rw [e2]
  have e3 : afterTrailingFence ('\n' :: (s ++ '\n' :: fenceChars))
      = '\n' :: (s ++ ['\n']) := by
    unfold afterTrailingFence
    have hsplit : '\n' :: (s ++ '\n' :: fenceChars)
        = ('\n' :: (s ++ ['\n'])) ++ fenceChars := by simp
    rw [hsplit, if_pos (fence_isSuffixOf_append _), dropRight3_concat_fence]
  rw [e3]
  exact pyStrip_wrapped s ⟨a, t, hl, ha⟩ ⟨b, hb, hsb⟩

lemma cleanResponse_plain (s : List Char)
    (h1 : ∃ a t, s = a :: t ∧ isWsChar a = false ∧ a ≠ '`')
    (h2 : ∃ b, s.getLast? = some b ∧ isWsChar b = false ∧ b ≠ '`') :
    cleanResponse s = s := by
  obtain ⟨a, t, hl, ha, ha'⟩ := h1
  obtain ⟨b, hb, hsb, hb'⟩ := h2
  unfold cleanResponse
  rw [pyStrip_eq_self s ⟨a, t, hl, ha⟩ ⟨b, hb, hsb⟩]
  have e1 : afterJsonFence s = s := by
    unfold afterJsonFence
    rw [hl, if_neg (by simp [jsonFence_not_prefixOf a t ha'])]
  rw [e1]
  have e2 : afterBareFence s = s := by
    unfold afterBareFence
    rw [hl, if_neg (by simp [fence_not_prefixOf a t ha'])]
  rw [e2]
  have e3 : afterTrailingFence s = s := by
    unfold afterTrailingFence
    rw [if_neg (by simp [fence_not_suffixOf s b hb hb'])]
  rw [e3]
  exact pyStrip_eq_self s ⟨a, t, hl, ha⟩ ⟨b, hb, hsb⟩

lemma serialize_head_nonfence (j : Json) :
    ∃ a t, Json.serialize j = a :: t ∧ isWsChar a = false ∧ a ≠ '`' := by
  obtain ⟨⟨a, t, he, hs⟩, _⟩ := serialize_ends_solid j
  exact ⟨a, t, he, hs.1, hs.2⟩

lemma serialize_last_nonfence (j : Json) :
    ∃ b, (Json.serialize j).getLast? = some b ∧ isWsChar b = false ∧ b ≠ '`' := by
  obtain ⟨_, ⟨b, hb, hs⟩⟩ := serialize_ends_solid j
  exact ⟨b, hb, hs.1, hs.2⟩

/-- Claim C4: response-parser round trip — for every JSON value whose
serialization the decoder maps back to itself, parsing the
serialization wrapped in a ```json fenced code block yields exactly
the original value, and parsing the bare serialization succeeds with
the same result.  (`decode` stands for `json.loads`; the code's own
contribution, the fence-stripping `cleanResponse`, is proved to give
the decoder the exact serialized text in both cases.) -/
theorem c4_parser_roundtrip (decode : List Char → Option Json) (j : Json)
    (hd : decode (Json.serialize j) = some j) :
    parseWith decode (fenceWrap (Json.serialize j)) = some j
  ∧ parseWith decode (Json.serialize j) = some j := by
  constructor
  · rw [parseWith, cleanResponse_fenceWrap (Json.serialize j)
      (serialize_head_nonfence j) (serialize_last_nonfence j), hd]
  · rw [parseWith, cleanResponse_plain (Json.serialize j)
      (serialize_head_nonfence j) (serialize_last_nonfence j), hd]

/-- A small course-shaped object used to witness C4 with the
executable decoder. -/
def c4Demo : Json :=
  Json.obj
    [(['t', 'i', 't', 'l', 'e'], Json.str ['T']),
     (['m', 'o', 'd', 'u', 'l', 'e', 's'],
      Json.arr [Json.obj [(['n', 'a', 'm', 'e'], Json.str ['M', '1'])]])]

/-- Witness for C4: the executable decoder `jsonDecode` inverts the
serializer on a concrete course object, and both the fenced and the
bare parse return exactly that object. -/
theorem c4_witness :
    jsonDecode (Json.serialize c4Demo) = some c4Demo
  ∧ parseWith jsonDecode (fenceWrap (Json.serialize c4Demo)) = some c4Demo
  ∧ parseWith jsonDecode (Json.serialize c4Demo) = some c4Demo :=
  ⟨rfl, (c4_parser_roundtrip jsonDecode c4Demo rfl).1,
   (c4_parser_roundtrip jsonDecode c4Demo rfl).2⟩

/-- Claim C5 (amended): at the parse boundary of `generate_quiz` and
`generate_course` every exception is caught — the operation returns
`None` exactly when the fence-stripped text fails to decode as JSON
(for courses, also when the decoded value is not an object, since the
metadata stamping then raises a caught `TypeError`).  No top-level
key validation is performed: a decoded value lacking `questions`
(resp. `title`/`modules`) is returned as a success, and the failure
path carries only the exception message, not the raw text. -/
theorem c5_parse_boundary (raw topic level date : List Char) :
    (jsonDecode (cleanResponse raw) = none →
        parseQuizText raw = none ∧ parseCourseText topic level date raw = none)
  ∧ (∀ v, jsonDecode (cleanResponse raw) = some v → parseQuizText raw = some v)
  ∧ (∀ members, jsonDecode (cleanResponse raw) = some (Json.obj members) →
        parseCourseText topic level date raw
          = some (Json.obj (stampCourse members topic level date)))
  ∧ (∀ v, jsonDecode (cleanResponse raw) = some v →
        (∀ members, v ≠ Json.obj members) →
        parseCourseText topic level date raw = none) := by
  refine ⟨?_, ?_, ?_, ?_⟩
  · intro hdec
    exact ⟨by rw [parseQuizText, hdec], by rw [parseCourseText, hdec]⟩
  · intro v hdec
    rw [parseQuizText, hdec]
  · intro members hdec
    rw [parseCourseText, hdec]
  · intro v hdec hnot
    rw [parseCourseText, hdec]
    cases v with
    | obj members => exact absurd rfl (hnot members)
    | null => rfl
    | bool b => rfl
    | num n => rfl
    | str s => rfl
    | arr items => rfl

/-- The raw text of the C5 counterexample: a fenced, well-formed JSON
object with a single key `foo` — no `questions` key. -/
def c5NoKeysRaw : List Char :=
  fenceWrap (Json.serialize (Json.obj [(['f', 'o', 'o'], Json.str ['b', 'a', 'r'])]))

/-- Counterexample to C5 as stated: the fence-stripped text is valid
JSON whose decoded value lacks the required top-level key
`questions`, yet the quiz parse boundary returns it as a success
instead of failing with a `ParseError`. -/
theorem c5_counterexample :
    parseQuizText c5NoKeysRaw
        = some (Json.obj [(['f', 'o', 'o'], Json.str ['b', 'a', 'r'])])
  ∧ hasKey (Json.obj [(['f', 'o', 'o'], Json.str ['b', 'a', 'r'])])
        ['q', 'u', 'e', 's', 't', 'i', 'o', 'n', 's'] = false :=
  ⟨rfl, rfl⟩

/-- The raw text of the C5 witness: a truncated JSON object. -/
def c5TruncatedRaw : List Char :=
  ['{', '"', 't', 'i', 't', 'l', 'e', '"', ':', ' ']

/-- Witness for the amended C5: a truncated JSON object fails to
decode, and both parse boundaries return `None` (the caught-exception
path) rather than raising. -/
theorem c5_witness :
    jsonDecode (cleanResponse c5TruncatedRaw) = none
  ∧ parseQuizText c5TruncatedRaw = none
  ∧ parseCourseText ['t'] ['l'] ['d'] c5TruncatedRaw = none :=
  ⟨rfl, ((c5_parse_boundary c5TruncatedRaw ['t'] ['l'] ['d']).1 rfl).1,
   ((c5_parse_boundary c5TruncatedRaw ['t'] ['l'] ['d']).1 rfl).2⟩
